import Mathlib

/-!
Verification of the combat-resolution and simulation engine of
`boss_balance_desktop_encounter_v3_resized.py` (a boss-encounter balance tool).

The Python source is shallowly embedded: pure helpers become Lean functions on
`ℤ`/`ℚ`/`List`, and every random draw of the Monte-Carlo simulators is supplied
by an explicit oracle argument, so that the simulators become deterministic
functions of their configuration and of the oracle.  Python floats are modelled
as rationals (all quantities involved are dyadic/decimal, so no rounding
behaviour of binary floats is relevant to the properties proved here).
-/

namespace BossBalance

/-! ### Character/string helpers shared by the parsers

Python `str.strip()` removes surrounding whitespace; we model the ASCII
whitespace characters, which covers every input the program manipulates. -/

def isPySpace (c : Char) : Bool := c = ' ' || c = '\t' || c = '\n' || c = '\r'

def stripWS (cs : List Char) : List Char :=
  ((cs.dropWhile isPySpace).reverse.dropWhile isPySpace).reverse

/-- Numeric value of a list of decimal digit characters (most significant first). -/
def digitsVal (cs : List Char) : ℕ :=
  cs.foldl (fun acc c => 10 * acc + (c.toNat - 48)) 0

/-- Value of an optionally signed digit string, as produced by the token scanners. -/
def signedVal (cs : List Char) : ℤ :=
  match cs with
  | '-' :: ds => -(digitsVal ds : ℤ)
  | '+' :: ds => (digitsVal ds : ℤ)
  | ds => (digitsVal ds : ℤ)

/-! ### DiceExpression: `parse_damage_expression`

The Python parser lower-cases and de-spaces the input, consumes a leading
sign, collects every regex match of `([+-]?\d*)d(\d+)` as a dice term, removes
those matches (`re.sub`) and sums the remaining `[+-]?\d+` tokens as the flat
modifier.  `scanDiceAux` implements exactly the leftmost non-overlapping match
semantics of that regex (for this pattern the regex engine never needs to
backtrack into `\d*`, so a deterministic scanner is equivalent), returning both
the matches and the unmatched remainder. -/

/-- Try to match `([+-]?\d*)d(\d+)` at the head of the input; on success return
((count string, sides string), rest of input). -/
def matchDiceTerm (cs : List Char) : Option ((List Char × List Char) × List Char) :=
  let sgn := match cs with
    | c :: _ => if c = '+' || c = '-' then [c] else []
    | [] => []
  let cs1 := if sgn.isEmpty then cs else cs.tail
  let digs := cs1.takeWhile Char.isDigit
  let cs2 := cs1.dropWhile Char.isDigit
  match cs2 with
  | 'd' :: cs3 =>
    let sdigs := cs3.takeWhile Char.isDigit
    if sdigs.isEmpty then none
    else some ((sgn ++ digs, sdigs), cs3.dropWhile Char.isDigit)
  | _ => none

/-- Scan for all dice-term matches; also return the unmatched remainder
(the effect of `re.sub` with the same pattern).  The fuel argument only serves
termination; it is instantiated with the length of the input, which bounds the
number of scanning steps. -/
def scanDiceAux : ℕ → List Char → List (List Char × List Char) × List Char
  | 0, cs => ([], cs)
  | _, [] => ([], [])
  | fuel + 1, c :: cs =>
    match matchDiceTerm (c :: cs) with
    | some (t, rest) =>
      let p := scanDiceAux fuel rest
      (t :: p.1, p.2)
    | none =>
      let p := scanDiceAux fuel cs
      (p.1, c :: p.2)

/-- Try to match `[+-]?\d+` at the head of the input. -/
def matchIntTok (cs : List Char) : Option (List Char × List Char) :=
  let sgn := match cs with
    | c :: _ => if c = '+' || c = '-' then [c] else []
    | [] => []
  let cs1 := if sgn.isEmpty then cs else cs.tail
  let digs := cs1.takeWhile Char.isDigit
  if digs.isEmpty then none else some (sgn ++ digs, cs1.dropWhile Char.isDigit)

/-- Scan for all `[+-]?\d+` tokens (the flat-modifier tokens). -/
def scanToksAux : ℕ → List Char → List (List Char)
  | 0, _ => []
  | _, [] => []
  | fuel + 1, c :: cs =>
    match matchIntTok (c :: cs) with
    | some (t, rest) => t :: scanToksAux fuel rest
    | none => scanToksAux fuel cs

/-- Result of `parse_damage_expression`: overall sign, dice terms
`(count, sides)`, flat modifier. -/
structure ParsedDamage where
  sign : ℤ
  dice : List (ℤ × ℤ)
  modifier : ℤ
deriving DecidableEq

def parse_damage_expression (expr : String) : ParsedDamage :=
  let s := ((stripWS expr.data).map Char.toLower).filter (fun c => !(c = ' '))
  if s.isEmpty then ⟨1, [], 0⟩
  else
    let sign : ℤ := if s.head? = some '-' then -1 else 1
    let s1 := if s.head? = some '-' || s.head? = some '+' then s.tail else s
    let scanned := scanDiceAux s1.length s1
    let dice := scanned.1.map (fun t =>
      let cstr := t.1
      let c : ℤ :=
        if cstr = [] || cstr = ['+'] then 1
        else if cstr = ['-'] then -1
        else signedVal cstr
      (c, (digitsVal t.2 : ℤ)))
    let toks := scanToksAux scanned.2.length scanned.2
    ⟨sign, dice, (toks.map signedVal).sum⟩

/-! ### DiceExpression: averages (closed-form expectations) -/

def average_damage (expr : String) : ℚ :=
  let p := parse_damage_expression expr
  max 0 ((p.sign : ℚ) *
    ((p.dice.map (fun t => (t.1 : ℚ) * ((t.2 : ℚ) + 1) / 2)).sum + (p.modifier : ℚ)))

def average_crunchy_crit_damage (expr : String) : ℚ :=
  let p := parse_damage_expression expr
  max 0 ((p.sign : ℚ) *
    ((p.dice.map (fun t => (t.1 : ℚ) * ((t.2 : ℚ) + ((t.2 : ℚ) + 1) / 2))).sum +
      (p.modifier : ℚ)))

/-! ### DiceExpression: sampling (`roll_damage`, `roll_damage_crunchy_crit`)

A raw oracle value `v` stands for one call to the uniform generator; a die
with `sides` faces turns it into `1 + v % sides`, which ranges exactly over
`[1, sides]`.  Draws are indexed per dice term and per die. -/

def dieOf (sides : ℤ) (raw : ℕ) : ℕ := 1 + raw % sides.toNat

/-- Contribution of one `(count, sides)` term to `roll_damage`: skipped when
`count == 0 or sides <= 0`, otherwise `sign(count)` times the sum of
`|count|` die rolls. -/
def rollTermDamage (count sides : ℤ) (draw : ℕ → ℕ) : ℤ :=
  if count = 0 || sides ≤ 0 then 0
  else (if count > 0 then 1 else -1) *
    (((List.range count.natAbs).map (fun i => (dieOf sides (draw i) : ℤ))).sum)

def roll_damage (expr : String) (draw : ℕ → ℕ → ℕ) : ℚ :=
  let p := parse_damage_expression expr
  max 0 (((((p.dice.enum.map (fun ti => rollTermDamage ti.2.1 ti.2.2 (draw ti.1))).sum +
    p.modifier) * p.sign : ℤ) : ℚ))

/-- Contribution of one term to `roll_damage_crunchy_crit`: one die set at its
maximum plus one freshly rolled set, with the sign of the count
(`math.copysign`). -/
def crunchyTermDamage (count sides : ℤ) (draw : ℕ → ℕ) : ℤ :=
  if sides ≤ 0 || count = 0 then 0
  else (if count > 0 then 1 else -1) *
    ((count.natAbs * sides.toNat + ((List.range count.natAbs).map (fun i => dieOf sides (draw i))).sum : ℕ) : ℤ)

def roll_damage_crunchy_crit (expr : String) (draw : ℕ → ℕ → ℕ) : ℚ :=
  let p := parse_damage_expression expr
  max 0 (((((p.dice.enum.map (fun ti => crunchyTermDamage ti.2.1 ti.2.2 (draw ti.1))).sum +
    p.modifier) * p.sign : ℤ) : ℚ))

/-! ### ProbabilityModel: `hit_probs`, `p_save_fail`

`hit_probs` enumerates die faces exactly as the Python list comprehensions do:
`range(1, 21)` and, for `adv`/`dis`, all ordered pairs, classifying the chosen
face.  Any mode other than `"normal"`/`"adv"` falls into the `min` branch, as
in the source's conditional expression. -/

def d20faces : List ℕ := (List.range 20).map (fun i => i + 1)

/-- Classification of a d20 face: `(is_hit, is_crit)`. -/
def classify (ac b : ℤ) (r : ℕ) : Bool × Bool :=
  if r = 1 then (false, false)
  else if r = 20 then (true, true)
  else (decide ((r : ℤ) + b ≥ ac), false)

def normalHits (ac b : ℤ) : List (Bool × Bool) := d20faces.map (classify ac b)

def pairHits (ac b : ℤ) (mode : String) : List (Bool × Bool) :=
  d20faces.flatMap (fun r1 => d20faces.map (fun r2 =>
    classify ac b (if mode = "adv" then max r1 r2 else min r1 r2)))

/-- Returns `(p_noncrit, p_crit, p_any)`. -/
def hit_probs (ac b : ℤ) (mode : String) : ℚ × ℚ × ℚ :=
  if mode = "normal" then
    let hits := normalHits ac b
    let p_crit : ℚ := (hits.countP (fun h => h.2) : ℕ) / 20
    let p_noncrit : ℚ := ((hits.countP (fun h => h.1 && !h.2) : ℕ) : ℚ) / 20
    (p_noncrit, p_crit, p_noncrit + p_crit)
  else
    let hits := pairHits ac b mode
    let p_crit : ℚ := (hits.countP (fun h => h.2) : ℕ) / 400
    let p_noncrit : ℚ := ((hits.countP (fun h => h.1 && !h.2) : ℕ) : ℚ) / 400
    (p_noncrit, p_crit, p_noncrit + p_crit)

/-- Save-failure chance with the natural-1 / natural-20 clamp. -/
def p_save_fail (dc save_bonus : ℤ) : ℚ :=
  let target := dc - save_bonus
  if target ≤ 1 then 1/20
  else if target > 20 then 19/20
  else ((target - 1 : ℤ) : ℚ) / 20

/-! ### Save resolution rules of the two simulators (for claim C4)

`_run_mc_sim` (single-target simulator, line 1020) decides a save purely by
threshold; `_run_encounter_mc` (line 1213) additionally applies the natural-20
auto-success and natural-1 auto-failure.  Both are used verbatim inside the
respective simulator models below. -/

def mcSaveSuccess (roll : ℕ) (bonus dc : ℤ) : Bool := decide ((roll : ℤ) + bonus ≥ dc)

def encSaveSuccess (roll : ℕ) (bonus dc : ℤ) : Bool :=
  decide (roll = 20) || (decide ((roll : ℤ) + bonus ≥ dc) && decide (roll ≠ 1))

/-! ### CadenceModel: `parse_recharge` -/

/-- Python `int(str)`: surrounding whitespace stripped, optional sign, at
least one digit (we do not model underscore separators, which the program
never feeds to it). -/
def pyIntOfChars (cs : List Char) : Option ℤ :=
  match stripWS cs with
  | '-' :: ds => if ds ≠ [] ∧ ds.all Char.isDigit then some (-(digitsVal ds : ℤ)) else none
  | '+' :: ds => if ds ≠ [] ∧ ds.all Char.isDigit then some ((digitsVal ds : ℤ)) else none
  | ds => if ds ≠ [] ∧ ds.all Char.isDigit then some ((digitsVal ds : ℤ)) else none

/-- Split at the first occurrence of `sep` (Python `split(sep, 1)`), or `none`
when `sep` does not occur. -/
def splitFirst (sep : Char) : List Char → Option (List Char × List Char)
  | [] => none
  | c :: cs =>
    if c = sep then some ([], cs)
    else
      match splitFirst sep cs with
      | some p => some (c :: p.1, p.2)
      | none => none

/-- En dash and em dash are normalised to a plain hyphen. -/
def dashNorm (c : Char) : Char :=
  if c = Char.ofNat 8211 || c = Char.ofNat 8212 then '-' else c

def parse_recharge_chars (raw : List Char) : ℚ :=
  let t := (stripWS raw).map dashNorm
  if t.isEmpty then 0
  else
    match splitFirst '-' t with
    | some p =>
      match pyIntOfChars p.1, pyIntOfChars p.2 with
      | some a, some b =>
        let lo1 := min a b
        let hi1 := max a b
        let lo := max 1 (min 6 lo1)
        let hi := max 1 (min 6 hi1)
        ((hi - lo + 1 : ℤ) : ℚ) / 6
      | _, _ => 0
    | none =>
      match pyIntOfChars t with
      | some k0 => ((7 - max 2 (min 6 k0) : ℤ) : ℚ) / 6
      | none => 0

def parse_recharge (text : String) : ℚ := parse_recharge_chars text.data

/-! ### SingleTargetSimulator: `_run_mc_sim`

The simulator is embedded per trial: every call to the process-wide random
generator is replaced by a field of `StOracle`, indexed by round, attack index
and use index, so a trial is a deterministic function of its oracle.  A raw
draw `v` models one uniform sample; binomial draws are modelled by an
arbitrary oracle value clamped into the binomial's support `[0, uses]`. -/

def pyUpper (s : String) : String := ⟨s.data.map Char.toUpper⟩

def d20Of (raw : ℕ) : ℕ := 1 + raw % 20

/-- A boss attack row (already filtered to `enabled` rows, as
`attacks_enabled_from_table` does before either simulator runs). -/
structure Attack where
  name : String
  kind : String
  attack_bonus : ℤ
  dc : ℤ
  save_stat : String
  damage_expr : String
  uses_per_round : ℕ
  is_melee : Bool

/-- The options of `_run_mc_sim` (the `opts` dict subset it reads). -/
structure StOpts where
  mc_trials : ℕ
  mc_rounds : ℕ
  mode_select : String
  spread_targets : ℤ
  thp_expr : String
  rider_mode : String
  rider_duration : ℤ
  rider_melee_only : Bool

/-- The targeted party member: AC plus the save-bonus dictionary
(`dict.get` with default 0 is modelled by a total function). -/
structure PcRow where
  ac : ℤ
  saves : String → ℤ

/-- One trial's randomness for the single-target simulator. -/
structure StOracle where
  hits : ℕ → ℕ → ℕ
  saveRoll : ℕ → ℕ → ℕ → ℕ
  atkRoll1 : ℕ → ℕ → ℕ → ℕ
  atkRoll2 : ℕ → ℕ → ℕ → ℕ
  dmg : ℕ → ℕ → ℕ → ℕ → ℕ → ℕ

/-- One landing use of a save-type attack in `_run_mc_sim`: the target saves
iff `roll + bonus >= dc` (via `mcSaveSuccess`; note there is no natural-1 or
natural-20 rule here), for half damage on success and full on failure. -/
def stSaveUse (pc : PcRow) (atk : Attack) (o : StOracle) (rnd a u : ℕ) : ℚ :=
  let bonus := pc.saves (pyUpper atk.save_stat)
  let roll := d20Of (o.saveRoll rnd a u)
  let d := roll_damage atk.damage_expr (o.dmg rnd a u)
  if mcSaveSuccess roll bonus atk.dc then d / 2 else d

/-- One use of an attack-roll attack in `_run_mc_sim`; returns the damage and
whether the rider effect was triggered. -/
def stAttackUse (opts : StOpts) (atk : Attack) (current_ac : ℤ) (current_mode : String)
    (o : StOracle) (rnd a u : ℕ) : ℚ × Bool :=
  let r1 := d20Of (o.atkRoll1 rnd a u)
  let r2 := d20Of (o.atkRoll2 rnd a u)
  let roll := if current_mode = "adv" then max r1 r2
              else if current_mode = "dis" then min r1 r2 else r1
  let is_crit := decide (roll = 20)
  let is_hit := is_crit || (decide (roll ≠ 1) && decide ((roll : ℤ) + atk.attack_bonus ≥ current_ac))
  if is_hit then
    ((if is_crit then roll_damage_crunchy_crit atk.damage_expr (o.dmg rnd a u)
      else roll_damage atk.damage_expr (o.dmg rnd a u)),
     atk.is_melee || !opts.rider_melee_only)
  else (0, false)

/-- One round of `_run_mc_sim` for one trial.  The state is
(total damage so far, remaining rider duration). -/
def stRound (opts : StOpts) (attacks : List Attack) (pc : PcRow) (thp_avg : ℚ)
    (o : StOracle) (rnd : ℕ) (st : ℚ × ℤ) : ℚ × ℤ :=
  let current_ac := if opts.rider_mode = "-2 AC next round" ∧ st.2 > 0 then pc.ac - 2 else pc.ac
  let current_mode :=
    if opts.rider_mode = "grant advantage on melee next round" ∧ st.2 > 0 then "adv"
    else opts.mode_select
  let step := attacks.enum.foldl (fun (acc : ℚ × Bool) ia =>
    let a := ia.1
    let atk := ia.2
    if atk.uses_per_round = 0 then acc
    else
      let h := min (o.hits rnd a) atk.uses_per_round
      if h = 0 then acc
      else if atk.kind = "save" then
        (acc.1 + ((List.range h).map (fun u => stSaveUse pc atk o rnd a u)).sum, acc.2)
      else
        (List.range h).foldl (fun acc2 u =>
          let r := stAttackUse opts atk current_ac current_mode o rnd a u
          (acc2.1 + r.1, acc2.2 || r.2)) acc) (0, false)
  (st.1 + max 0 (step.1 - thp_avg),
   max 0 (if step.2 then opts.rider_duration else st.2 - 1))

def runStTrial (opts : StOpts) (attacks : List Attack) (pc : PcRow) (o : StOracle) : ℚ × ℤ :=
  (List.range opts.mc_rounds).foldl
    (fun st r => stRound opts attacks pc (average_damage opts.thp_expr) o r st) (0, 0)

/-- `_run_mc_sim`: one total-damage value per trial. -/
def run_mc_sim (opts : StOpts) (attacks : List Attack) (pc : PcRow)
    (os : ℕ → StOracle) : List ℚ :=
  (List.range opts.mc_trials).map (fun t => (runStTrial opts attacks pc (os t)).1)

/-! ### EncounterSimulator: `_run_encounter_mc`

The vectorised numpy loops act independently on each trial (cross-trial
interaction exists only through the shared random stream, which the oracle
replaces), so the encounter is embedded as one deterministic function per
trial, folded over rounds `1..enc_max_rounds`.  The early `break` when every
trial has a finite TTK is semantics-preserving because every phase is a no-op
on a trial whose TTK is already recorded. -/

/-- The options `_run_encounter_mc` reads.  `boss_hp` and trial/round counts
come from integer spin boxes; float-valued options are modelled as rationals. -/
structure EncOpts where
  mode_select : String
  spread_targets : ℤ
  thp_expr : String
  lair_enabled : Bool
  lair_avg : ℚ
  lair_targets : ℤ
  lair_every_n : ℤ
  rech_enabled : Bool
  recharge_text : String
  rech_avg : ℚ
  rech_targets : ℤ
  rider_mode : String
  rider_duration : ℤ
  rider_melee_only : Bool
  boss_hp : ℤ
  resist_factor : ℚ
  boss_regen : ℚ
  enc_trials : ℕ
  enc_max_rounds : ℕ
  initiative_mode : String

structure PartyMember where
  ac : ℤ
  hp0 : ℤ
  saves : String → ℤ

def pmDefault : PartyMember := ⟨10, 1, fun _ => 0⟩

/-- `_gamma_rng(mean, cv)`: returns `0.0` when the (clamped) mean is `≤ 0`,
otherwise a Gamma sample, which is always nonnegative; the oracle supplies the
raw sample. -/
def gammaDraw (mean raw : ℚ) : ℚ := if mean ≤ 0 then 0 else max 0 raw

/-- One trial's randomness for the encounter simulator, indexed by round,
attack index, use index, etc. -/
structure EncOracle where
  bossFirstCoin : ℕ → Bool
  partyGamma : ℕ → ℕ → ℚ
  poolSeed : ℕ → ℕ → ℕ
  targetSeed : ℕ → ℕ → ℕ → ℕ
  saveD20 : ℕ → ℕ → ℕ → ℕ
  atkD20a : ℕ → ℕ → ℕ → ℕ
  atkD20b : ℕ → ℕ → ℕ → ℕ
  dmgDraw : ℕ → ℕ → ℕ → ℕ → ℕ → ℕ
  lairSeed : ℕ → ℕ → ℕ
  lairGamma : ℕ → ℕ → ℚ
  rechU : ℕ → ℚ
  rechSeed : ℕ → ℕ → ℕ
  rechGamma : ℕ → ℕ → ℚ

/-- `np.random.choice(xs, size=k, replace=False)`: draw `k` distinct elements,
each pick driven by one oracle value. -/
def chooseWithout : ℕ → List ℕ → (ℕ → ℕ) → List ℕ
  | 0, _, _ => []
  | _ + 1, [], _ => []
  | k + 1, x :: xs, seed =>
    let i := seed 0 % (x :: xs).length
    (x :: xs).getD i 0 :: chooseWithout k ((x :: xs).eraseIdx i) (fun j => seed (j + 1))

/-- Per-trial state of one encounter trial. -/
structure EncTrial where
  bossHp : ℚ
  pcsHp : List ℚ
  alive : List Bool
  riderRem : List ℤ
  ttk : Option ℕ
  tpk : Bool
  down : ℕ

/-- The party phase: living members' Gamma damage, divided by the resistance
factor, less regeneration (floored at 0), subtracted from boss HP; a kill
records the TTK and the number of downed members. -/
def partyPhase (cfg : EncOpts) (party : List PartyMember) (effMeans : List ℚ)
    (o : EncOracle) (rnd : ℕ) (st : EncTrial) : EncTrial :=
  if st.ttk.isSome then st
  else
    let dmg : ℚ := (List.range party.length).foldl (fun acc j =>
      if st.alive.getD j false then acc + gammaDraw (effMeans.getD j 0) (o.partyGamma rnd j)
      else acc) 0
    let adj := max 0 (dmg / max (1/1000000) cfg.resist_factor - cfg.boss_regen)
    let hp2 := st.bossHp - adj
    if hp2 ≤ 0 then
      { st with bossHp := hp2, ttk := some rnd, down := st.alive.countP (fun a => !a) }
    else { st with bossHp := hp2 }

/-- Per-member effective AC for the boss phase: when the `-2 AC` rider mode is
selected and the member's rider is active, `max(1, AC - 2)`. -/
def effectiveACs (riderACActive : Bool) (acs : List ℤ) (riderRem : List ℤ) : List ℤ :=
  (List.range acs.length).map (fun j =>
    if riderACActive ∧ riderRem.getD j 0 > 0 then max 1 (acs.getD j 0 - 2) else acs.getD j 0)

/-- Mutable sub-state of the boss phase: party HP, alive flags, and which
members were struck by a rider-qualifying hit this round. -/
structure BossPhaseSt where
  pcsHp : List ℚ
  alive : List Bool
  trig : List Bool

/-- Deal `dealt0` (before temp-HP reduction) to `target`: HP decreases by
`max(0, dealt0 - thp_avg)` and the target is marked dead when HP drops `≤ 0`. -/
def applyDamage (thp_avg dealt0 : ℚ) (target : ℕ) (s : BossPhaseSt) : BossPhaseSt :=
  let dealt := max 0 (dealt0 - thp_avg)
  let hp2 := s.pcsHp.getD target 0 - dealt
  { s with pcsHp := s.pcsHp.set target hp2,
           alive := if hp2 ≤ 0 then s.alive.set target false else s.alive }

/-- One use of one boss attack in the encounter simulator: pick a target from
the round's (re-validated) pool, resolve save-or-attack, apply damage. -/
def encAttackUse (cfg : EncOpts) (atk : Attack) (party : List PartyMember)
    (effACs : List ℤ) (modeOf : ℕ → String) (thp_avg : ℚ) (o : EncOracle)
    (rnd a u : ℕ) (pool : List ℕ) (s : BossPhaseSt) : BossPhaseSt :=
  let alive_pool := pool.filter (fun i => s.alive.getD i false)
  let pool2 :=
    if alive_pool.isEmpty then (List.range party.length).filter (fun i => s.alive.getD i false)
    else alive_pool
  if pool2.isEmpty then s
  else
    let target := pool2.getD (o.targetSeed rnd a u % pool2.length) 0
    if ¬ (s.alive.getD target false) then s
    else if atk.kind = "save" then
      let bonus := (party.getD target pmDefault).saves (pyUpper atk.save_stat)
      let roll := d20Of (o.saveD20 rnd a u)
      let dmg := roll_damage atk.damage_expr (o.dmgDraw rnd a u)
      let dealt := if encSaveSuccess roll bonus atk.dc then dmg / 2 else dmg
      applyDamage thp_avg dealt target s
    else
      let r1 := d20Of (o.atkD20a rnd a u)
      let r2 := d20Of (o.atkD20b rnd a u)
      let mode := modeOf target
      let r := if mode = "adv" then max r1 r2 else if mode = "dis" then min r1 r2 else r1
      let is_crit := decide (r = 20)
      let is_hit := is_crit ||
        (decide (r ≠ 1) && decide ((r : ℤ) + atk.attack_bonus ≥ effACs.getD target 0))
      if is_hit then
        let dealt :=
          if is_crit then roll_damage_crunchy_crit atk.damage_expr (o.dmgDraw rnd a u)
          else roll_damage atk.damage_expr (o.dmgDraw rnd a u)
        let s2 :=
          if atk.is_melee || !cfg.rider_melee_only then { s with trig := s.trig.set target true }
          else s
        applyDamage thp_avg dealt target s2
      else applyDamage thp_avg 0 target s

/-- The lair action: on cadence rounds, up to `lair_targets` living members
each take a Gamma(lair_avg, cv = 0.5) hit (temp-HP adjusted). -/
def encLair (cfg : EncOpts) (party : List PartyMember) (thp_avg : ℚ) (o : EncOracle)
    (rnd : ℕ) (s : BossPhaseSt) : BossPhaseSt :=
  if cfg.lair_enabled ∧ rnd % (max 1 cfg.lair_every_n).toNat = 0 then
    let aliveIdxs := (List.range party.length).filter (fun i => s.alive.getD i false)
    if aliveIdxs.isEmpty then s
    else
      let targets := chooseWithout (min cfg.lair_targets.toNat aliveIdxs.length) aliveIdxs (o.lairSeed rnd)
      targets.enum.foldl (fun s2 it =>
        applyDamage thp_avg (gammaDraw cfg.lair_avg (o.lairGamma rnd it.1)) it.2 s2) s
  else s

/-- The recharge action: fires when the uniform draw lands under the parsed
recharge probability; then up to `rech_targets` living members take a
Gamma(rech_avg, cv = 0.5) hit each. -/
def encRecharge (cfg : EncOpts) (party : List PartyMember) (thp_avg : ℚ) (o : EncOracle)
    (rnd : ℕ) (s : BossPhaseSt) : BossPhaseSt :=
  if cfg.rech_enabled ∧ max 0 (o.rechU rnd) < parse_recharge cfg.recharge_text then
    let aliveIdxs := (List.range party.length).filter (fun i => s.alive.getD i false)
    if aliveIdxs.isEmpty then s
    else
      let targets := chooseWithout (min cfg.rech_targets.toNat aliveIdxs.length) aliveIdxs (o.rechSeed rnd)
      targets.enum.foldl (fun s2 it =>
        applyDamage thp_avg (gammaDraw cfg.rech_avg (o.rechGamma rnd it.1)) it.2 s2) s
  else s

/-- The boss phase: rider-adjusted AC/roll mode, a per-round target pool of
size `min(spread_targets, living)`, all enabled attacks' uses, then lair and
recharge actions, rider-counter bookkeeping and the team-wipe check. -/
def bossPhase (cfg : EncOpts) (attacks : List Attack) (party : List PartyMember)
    (thp_avg : ℚ) (o : EncOracle) (rnd : ℕ) (st : EncTrial) : EncTrial :=
  if st.ttk.isSome then st
  else
    let P := party.length
    let effACs := effectiveACs (cfg.rider_mode = "-2 AC next round")
      (party.map (fun pc => pc.ac)) st.riderRem
    let modeOf := fun j =>
      if cfg.rider_mode = "grant advantage on melee next round" ∧ st.riderRem.getD j 0 > 0
      then "adv" else cfg.mode_select
    let aliveIdxs := (List.range P).filter (fun i => st.alive.getD i false)
    let pool : List ℕ :=
      if aliveIdxs.isEmpty then []
      else chooseWithout (min (max 1 cfg.spread_targets).toNat aliveIdxs.length) aliveIdxs (o.poolSeed rnd)
    let s0 : BossPhaseSt := ⟨st.pcsHp, st.alive, List.replicate P false⟩
    let s1 := attacks.enum.foldl (fun s ia =>
      (List.range ia.2.uses_per_round).foldl (fun s2 u =>
        if pool.isEmpty then s2
        else encAttackUse cfg ia.2 party effACs modeOf thp_avg o rnd ia.1 u pool s2) s) s0
    let s2 := encLair cfg party thp_avg o rnd s1
    let s3 := encRecharge cfg party thp_avg o rnd s2
    let rider2 := (List.range P).map (fun j =>
      if s3.trig.getD j false then cfg.rider_duration else max 0 (st.riderRem.getD j 0 - 1))
    let allDead := s3.alive.all (fun a => !a)
    { st with pcsHp := s3.pcsHp, alive := s3.alive, riderRem := rider2,
              tpk := st.tpk || allDead }

/-- Initiative for one trial and round. -/
def bossGoesFirst (cfg : EncOpts) (o : EncOracle) (rnd : ℕ) : Bool :=
  if cfg.initiative_mode = "boss_first" then true
  else if cfg.initiative_mode = "party_first" then false
  else o.bossFirstCoin rnd

/-- One encounter round for one trial: the two phases in initiative order. -/
def encRound (cfg : EncOpts) (attacks : List Attack) (party : List PartyMember)
    (effMeans : List ℚ) (thp_avg : ℚ) (o : EncOracle) (rnd : ℕ) (st : EncTrial) : EncTrial :=
  if bossGoesFirst cfg o rnd then
    partyPhase cfg party effMeans o rnd (bossPhase cfg attacks party thp_avg o rnd st)
  else
    bossPhase cfg attacks party thp_avg o rnd (partyPhase cfg party effMeans o rnd st)

def encInit (cfg : EncOpts) (party : List PartyMember) : EncTrial :=
  { bossHp := (cfg.boss_hp : ℚ)
  , pcsHp := party.map (fun pc => (pc.hp0 : ℚ))
  , alive := party.map (fun _ => true)
  , riderRem := party.map (fun _ => 0)
  , ttk := none
  , tpk := false
  , down := 0 }

def runEncTrial (cfg : EncOpts) (attacks : List Attack) (party : List PartyMember)
    (effMeans : List ℚ) (o : EncOracle) : EncTrial :=
  (List.range cfg.enc_max_rounds).foldl
    (fun st i =>
      encRound cfg attacks party effMeans (max 0 (average_damage cfg.thp_expr)) o (i + 1) st)
    (encInit cfg party)

/-- Result record of `_run_encounter_mc`; `none` in the `ttk` list stands for
`np.inf` (boss not defeated by the round cap). -/
structure EncMetrics where
  ttk : List (Option ℕ)
  tpk_prob : ℚ
  pcs_down_at_victory : List ℕ
  times : List ℕ
  survival_curve : List ℚ

/-- `ttk > t` in the numpy sense, where an infinite TTK compares greater. -/
def ttkGT (tk : Option ℕ) (t : ℕ) : Bool :=
  match tk with
  | none => true
  | some r => decide (r > t)

def run_encounter_mc (cfg : EncOpts) (attacks : List Attack) (party : List PartyMember)
    (effMeans : List ℚ) (os : ℕ → EncOracle) : EncMetrics :=
  let results := (List.range cfg.enc_trials).map (fun t => runEncTrial cfg attacks party effMeans (os t))
  let ttks := results.map (fun r => r.ttk)
  { ttk := ttks
  , tpk_prob := ((results.countP (fun r => r.tpk) : ℕ) : ℚ) / (cfg.enc_trials : ℚ)
  , pcs_down_at_victory := (results.filter (fun r => r.ttk.isSome)).map (fun r => r.down)
  , times := List.range (cfg.enc_max_rounds + 1)
  , survival_curve := (List.range (cfg.enc_max_rounds + 1)).map (fun t =>
      ((ttks.countP (fun tk => ttkGT tk t) : ℕ) : ℚ) / (cfg.enc_trials : ℚ)) }

/-! ### AutoTuner: `_on_auto_tune`

The tuner drives `_run_encounter_mc` through `simulate_with_hp`; here the
whole simulation is abstracted into an argument
`sim : ℤ → ℕ → Option ℚ × ℚ` mapping (boss HP written into the options,
trial count) to (median finite TTK — `none` for `math.inf` when the boss
never dies — and TPK probability).  Comparisons against `math.inf` follow
IEEE semantics: `inf < t` is false, `inf ≥ t` and `inf > t` are true, and
`|inf - t| < 0.05` is false.  The returned pair is (tuning outcome, final
`(boss_hp, enc_trials)` option values). -/

/-- Python 3 `round()` on a float: nearest integer, ties to even. -/
def pyRound (q : ℚ) : ℤ :=
  let f := ⌊q⌋
  if q - f < 1/2 then f
  else if q - f > 1/2 then f + 1
  else if f % 2 = 0 then f else f + 1

/-- `m < t` where `none` is `+∞`. -/
def oLT (m : Option ℚ) (t : ℚ) : Bool :=
  match m with
  | none => false
  | some q => decide (q < t)

/-- `m > t` where `none` is `+∞`. -/
def oGT (m : Option ℚ) (t : ℚ) : Bool :=
  match m with
  | none => true
  | some q => decide (q > t)

/-- `m ≤ t` where `none` is `+∞`. -/
def oLE (m : Option ℚ) (t : ℚ) : Bool :=
  match m with
  | none => false
  | some q => decide (q ≤ t)

/-- `t ≤ m` where `none` is `+∞`. -/
def leO (t : ℚ) (m : Option ℚ) : Bool :=
  match m with
  | none => true
  | some q => decide (t ≤ q)

/-- `abs(m - t) < 0.05` where `none` is `+∞` (always false). -/
def oClose (m : Option ℚ) (t : ℚ) : Bool :=
  match m with
  | none => false
  | some q => decide (|q - t| < 1/20)

structure TuneInput where
  target : ℚ
  original_hp : ℤ
  original_trials : ℕ

structure TuneResult where
  finalHigh : ℚ
  tunedHp : ℤ
  medFinal : Option ℚ
  tpkFinal : ℚ

/-- `simulate_with_hp`: the candidate HP is written as `int(max(1, round(hp)))`. -/
def simulate_with_hp (sim : ℤ → ℕ → Option ℚ × ℚ) (hp : ℚ) (trials : ℕ) : Option ℚ × ℚ :=
  sim (max 1 (pyRound hp)) trials

/-- The doubling phase: `while med_high < target and attempts < 12`. -/
def escalateHigh (sim : ℤ → ℕ → Option ℚ × ℚ) (quick : ℕ) (target : ℚ) :
    ℕ → ℚ → Option ℚ → ℚ × Option ℚ
  | 0, high, medHigh => (high, medHigh)
  | n + 1, high, medHigh =>
    if oLT medHigh target then
      escalateHigh sim quick target n (high * 2) (simulate_with_hp sim (high * 2) quick).1
    else (high, medHigh)

/-- The bisection phase with its early break (`abs(med_mid - target) < 0.05`);
returns the final `(low, high)`. -/
def bisectLoop (sim : ℤ → ℕ → Option ℚ × ℚ) (quick : ℕ) (target : ℚ) :
    ℕ → ℚ → ℚ → ℚ × ℚ
  | 0, low, high => (low, high)
  | n + 1, low, high =>
    let mid := (low + high) / 2
    let medMid := (simulate_with_hp sim mid quick).1
    let lh := if leO target medMid then (low, mid) else (mid, high)
    if oClose medMid target then lh
    else bisectLoop sim quick target n lh.1 lh.2

/-- The degenerate-low-bound guard: `if med_low > target`, reset `low` to 1
and re-simulate (the low bound is already 1.0, so only the median changes). -/
def retryLow (sim : ℤ → ℕ → Option ℚ × ℚ) (quick : ℕ) (target : ℚ)
    (medLow0 : Option ℚ) : Option ℚ :=
  if oGT medLow0 target then (simulate_with_hp sim 1 quick).1 else medLow0

/-- `_on_auto_tune`.  `int(original_trials * 0.4)` is modelled as
`⌊original_trials * 2/5⌋` (the float factor 0.4 only affects the reduced
trial count, never a tuning decision). -/
def autoTune (inp : TuneInput) (sim : ℤ → ℕ → Option ℚ × ℚ) :
    Option TuneResult × (ℤ × ℕ) :=
  let quick := max 3000 (((inp.original_trials : ℚ) * (2/5)).floor.toNat)
  let high0 : ℚ := max 10 (inp.original_hp : ℚ)
  let medLow0 := (simulate_with_hp sim 1 quick).1
  let medHigh0 := (simulate_with_hp sim high0 quick).1
  let hm := escalateHigh sim quick inp.target 12 high0 medHigh0
  let medLow1 := retryLow sim quick inp.target medLow0
  if oLE medLow1 inp.target && leO inp.target hm.2 then
    let lh := bisectLoop sim quick inp.target 16 1 hm.1
    let tuned := pyRound lh.2
    let fin := sim tuned inp.original_trials
    (some ⟨lh.2, tuned, fin.1, fin.2⟩, (tuned, inp.original_trials))
  else
    (none, (inp.original_hp, inp.original_trials))

/-! ### Concrete fixtures used by witnesses and counterexamples -/

/-- Fixture: the save attack used to exhibit the natural-20 divergence. -/
def c4Atk : Attack := ⟨"Breath", "save", 0, 25, "DEX", "1d6", 1, false⟩

/-- Fixture: an oracle whose save d20 comes up natural 20 and whose damage
dice all roll 1. -/
def c4Oracle : StOracle :=
  ⟨fun _ _ => 1, fun _ _ _ => 19, fun _ _ _ => 0, fun _ _ _ => 0, fun _ _ _ _ _ => 0⟩

def c4Pc : PcRow := ⟨10, fun _ => 0⟩

/-! ## Claim C2: the crunchy-crit average -/

/-- Every dice term parsed out of a damage expression has nonnegative sides
(the sides group of the regex is all digits). -/
lemma parse_dice_sides_nonneg (expr : String) :
    ∀ t ∈ (parse_damage_expression expr).dice, 0 ≤ t.2 := by
  intro t ht
  unfold parse_damage_expression at ht
  dsimp only at ht
  split at ht
  · simp at ht
  · obtain ⟨a, _, rfl⟩ := List.mem_map.mp ht
    exact Int.natCast_nonneg _

/-- **C2**: for every parseable damage expression, the crunchy-crit average
equals the overall sign applied to (Σ count·(sides + (sides+1)/2) plus the
flat modifier applied once), clamped at ≥ 0; in particular
`averageCrit("1d6") = 9.5` and `averageCrit("2d6+4") = 23.0`. -/
theorem average_crunchy_crit_spec (expr : String) (sg : ℤ) (dice : List (ℤ × ℤ)) (m : ℤ)
    (h : parse_damage_expression expr = ⟨sg, dice, m⟩) :
    average_crunchy_crit_damage expr =
      max 0 ((sg : ℚ) *
        ((dice.map (fun t => (t.1 : ℚ) * ((t.2 : ℚ) + ((t.2 : ℚ) + 1) / 2))).sum + (m : ℚ))) ∧
    average_crunchy_crit_damage "1d6" = 19/2 ∧
    average_crunchy_crit_damage "2d6+4" = 23 := by
  refine ⟨?_, ?_, ?_⟩
  · unfold average_crunchy_crit_damage
    rw [h]
  · have hp : parse_damage_expression "1d6" = ⟨1, [(1, 6)], 0⟩ := by decide
    norm_num [average_crunchy_crit_damage, hp]
  · have hp : parse_damage_expression "2d6+4" = ⟨1, [(2, 6)], 4⟩ := by decide
    norm_num [average_crunchy_crit_damage, hp]

/-- Witness for C2 at the concrete input `"2d6+4"`. -/
theorem average_crunchy_crit_spec_witness : average_crunchy_crit_damage "2d6+4" = 23 :=
  (average_crunchy_crit_spec "2d6+4" 1 [(2, 6)] 4 (by decide)).2.2

/-! ## Claim C3: zero-sides dice terms -/

lemma rollTermDamage_of_sides_nonpos (c s : ℤ) (draw : ℕ → ℕ) (hs : s ≤ 0) :
    rollTermDamage c s draw = 0 := by
  simp [rollTermDamage, hs]

lemma crunchyTermDamage_of_sides_nonpos (c s : ℤ) (draw : ℕ → ℕ) (hs : s ≤ 0) :
    crunchyTermDamage c s draw = 0 := by
  simp [crunchyTermDamage, hs]

/-- **C3** (counterexample): the claim says a zero-sides term contributes
nothing to `averageNormal`, so that averaging `"2d0"` should equal the empty
expression's bare modifier (0); in fact `average_damage "2d0" = 1`, because
the averaging functions do not drop `sides ≤ 0` terms. -/
theorem average_2d0_counterexample :
    average_damage "2d0" = 1 ∧ average_damage "" = 0 ∧ (1 : ℚ) ≠ 0 := by
  have hp : parse_damage_expression "2d0" = ⟨1, [(2, 0)], 0⟩ := by decide
  have he : parse_damage_expression "" = ⟨1, [], 0⟩ := by decide
  refine ⟨?_, ?_, by norm_num⟩
  · norm_num [average_damage, hp]
  · norm_num [average_damage, he]

/-- **C3** (amended): dice terms with `sides ≤ 0` are dropped by the sampling
functions (`roll_damage`, `roll_damage_crunchy_crit`) and parsing never
produces negative sides, but the averaging functions include such terms:
`"2d0"` samples to 0 under every oracle yet averages to 1 (normal and crit). -/
theorem sides_nonpos_dropped_only_when_sampling (c s : ℤ) (draw : ℕ → ℕ) (hs : s ≤ 0) :
    rollTermDamage c s draw = 0 ∧ crunchyTermDamage c s draw = 0 ∧
    (∀ d2 : ℕ → ℕ → ℕ, roll_damage "2d0" d2 = 0) ∧
    (∀ d2 : ℕ → ℕ → ℕ, roll_damage_crunchy_crit "2d0" d2 = 0) ∧
    (∀ expr, ∀ t ∈ (parse_damage_expression expr).dice, 0 ≤ t.2) ∧
    average_damage "2d0" = 1 ∧ average_crunchy_crit_damage "2d0" = 1 := by
  have hp : parse_damage_expression "2d0" = ⟨1, [(2, 0)], 0⟩ := by decide
  have he : ([((2 : ℤ), (0 : ℤ))]).enum = [(0, (2, 0))] := by decide
  refine ⟨rollTermDamage_of_sides_nonpos c s draw hs,
    crunchyTermDamage_of_sides_nonpos c s draw hs, ?_, ?_, parse_dice_sides_nonneg, ?_, ?_⟩
  · intro d2
    have h0 : rollTermDamage 2 0 (d2 0) = 0 :=
      rollTermDamage_of_sides_nonpos _ _ _ (le_refl 0)
    simp [roll_damage, hp, he, h0]
  · intro d2
    have h0 : crunchyTermDamage 2 0 (d2 0) = 0 :=
      crunchyTermDamage_of_sides_nonpos _ _ _ (le_refl 0)
    simp [roll_damage_crunchy_crit, hp, he, h0]
  · norm_num [average_damage, hp]
  · norm_num [average_crunchy_crit_damage, hp]

/-- Witness for the amended C3 at a concrete zero-sides term. -/
theorem sides_nonpos_dropped_only_when_sampling_witness :
    rollTermDamage 2 0 (fun _ => 5) = 0 :=
  (sides_nonpos_dropped_only_when_sampling 2 0 (fun _ => 5) (by norm_num)).1

/-! ## Claim C4: the single-target simulator's save rule -/

/-- **C4** (code bug): the claim says `_run_mc_sim` resolves saves with the
`saveFailProbability` semantics (natural 1 always fails, natural 20 always
succeeds).  The code decides a save by raw threshold (`mcSaveSuccess`), so at
DC 25 with bonus +0 a natural 20 fails and `stSaveUse` deals the full rolled
damage, while `p_save_fail` (fail chance 19/20 < 1) and the encounter
simulator's `encSaveSuccess` both make a natural 20 succeed. -/
theorem single_target_save_ignores_nat_rules :
    stSaveUse c4Pc c4Atk c4Oracle 0 0 0 = roll_damage "1d6" (c4Oracle.dmg 0 0 0) ∧
    roll_damage "1d6" (c4Oracle.dmg 0 0 0) = 1 ∧
    mcSaveSuccess 20 0 25 = false ∧
    encSaveSuccess 20 0 25 = true ∧
    p_save_fail 25 0 = 19/20 := by
  have hp : parse_damage_expression "1d6" = ⟨1, [(1, 6)], 0⟩ := by decide
  have he : ([((1 : ℤ), (6 : ℤ))]).enum = [(0, (1, 6))] := by decide
  refine ⟨?_, ?_, by decide, by decide, by norm_num [p_save_fail]⟩
  · simp [stSaveUse, c4Pc, c4Atk, c4Oracle, d20Of, pyUpper, mcSaveSuccess]
  · norm_num [roll_damage, hp, he, rollTermDamage, dieOf, c4Oracle,
      List.range_succ]

/-! ## Claim C9: `parse_recharge` -/

lemma isPySpace_of_isDigit {c : Char} (h : c.isDigit = true) : isPySpace c = false := by
  cases hc : isPySpace c with
  | false => rfl
  | true =>
    simp only [isPySpace, Bool.or_eq_true, decide_eq_true_eq] at hc
    rcases hc with ((hc | hc) | hc) | hc <;> subst hc <;> exact absurd h (by decide)

lemma dashNorm_of_isDigit {c : Char} (h : c.isDigit = true) : dashNorm c = c := by
  unfold dashNorm
  split
  · next hc =>
    simp only [Bool.or_eq_true, decide_eq_true_eq] at hc
    rcases hc with hc | hc <;> subst hc <;> exact absurd h (by decide)
  · rfl

lemma ne_dash_of_isDigit {c : Char} (h : c.isDigit = true) : c ≠ '-' := by
  intro hc; subst hc; exact absurd h (by decide)

lemma dropWhile_eq_self_of {p : Char → Bool} (cs : List Char)
    (h : ∀ c ∈ cs, p c = false) : cs.dropWhile p = cs := by
  cases cs with
  | nil => rfl
  | cons c rest =>
    rw [List.dropWhile_cons, h c (List.mem_cons_self c rest)]
    simp

lemma stripWS_eq_self (cs : List Char) (h : ∀ c ∈ cs, isPySpace c = false) :
    stripWS cs = cs := by
  unfold stripWS
  rw [dropWhile_eq_self_of cs h,
    dropWhile_eq_self_of cs.reverse (fun c hc => h c (List.mem_reverse.mp hc)),
    List.reverse_reverse]

lemma map_dashNorm_eq_self (cs : List Char) (h : ∀ c ∈ cs, dashNorm c = c) :
    cs.map dashNorm = cs := by
  induction cs with
  | nil => rfl
  | cons c rest ih =>
    rw [List.map_cons, h c (List.mem_cons_self c rest),
      ih (fun x hx => h x (List.mem_cons_of_mem c hx))]

lemma splitFirst_eq_none (sep : Char) (cs : List Char) (h : ∀ c ∈ cs, c ≠ sep) :
    splitFirst sep cs = none := by
  induction cs with
  | nil => rfl
  | cons c rest ih =>
    rw [splitFirst, if_neg (h c (List.mem_cons_self c rest)),
      ih (fun x hx => h x (List.mem_cons_of_mem c hx))]

lemma splitFirst_append (sep : Char) (l r : List Char) (h : ∀ c ∈ l, c ≠ sep) :
    splitFirst sep (l ++ sep :: r) = some (l, r) := by
  induction l with
  | nil => simp [splitFirst]
  | cons c rest ih =>
    rw [List.cons_append, splitFirst, if_neg (h c (List.mem_cons_self c rest)),
      ih (fun x hx => h x (List.mem_cons_of_mem c hx))]

lemma pyIntOfChars_digits (ds : List Char) (hne : ds ≠ [])
    (hd : ∀ c ∈ ds, c.isDigit = true) : pyIntOfChars ds = some ((digitsVal ds : ℤ)) := by
  unfold pyIntOfChars
  rw [stripWS_eq_self ds (fun c hc => isPySpace_of_isDigit (hd c hc))]
  cases ds with
  | nil => exact absurd rfl hne
  | cons d rest =>
    have hdd : d.isDigit = true := hd d (List.mem_cons_self d rest)
    have h1 : d ≠ '-' := ne_dash_of_isDigit hdd
    have h2 : d ≠ '+' := by intro hc; subst hc; exact absurd hdd (by decide)
    have hall : (d :: rest).all Char.isDigit = true := List.all_eq_true.mpr hd
    split
    · next ds heq =>
      injection heq with hh _
      exact absurd hh h1
    · next ds heq =>
      injection heq with hh _
      exact absurd hh h2
    · rw [if_pos ⟨by simp, hall⟩]

/-- **C9**: `rechargeProbability` maps a single die face `k ∈ [2,6]` to
`(7-k)/6`, a range `lo-hi` with bounds clamped into `[1,6]` to `(hi-lo+1)/6`,
and any unparseable input (either side of the dash, or the single token,
failing integer parsing; or the empty string) to 0; in particular
`rechargeProbability("5-6") = 2/6` and `rechargeProbability("6") = 1/6`. -/
theorem parse_recharge_spec :
    (∀ ds : List Char, ds ≠ [] → (∀ c ∈ ds, c.isDigit = true) →
      2 ≤ (digitsVal ds : ℤ) → (digitsVal ds : ℤ) ≤ 6 →
      parse_recharge_chars ds = ((7 - (digitsVal ds : ℤ) : ℤ) : ℚ) / 6) ∧
    (∀ l r : List Char, l ≠ [] → r ≠ [] →
      (∀ c ∈ l, c.isDigit = true) → (∀ c ∈ r, c.isDigit = true) →
      (digitsVal l : ℤ) ≤ (digitsVal r : ℤ) →
      parse_recharge_chars (l ++ '-' :: r) =
        ((max 1 (min 6 (digitsVal r : ℤ)) - max 1 (min 6 (digitsVal l : ℤ)) + 1 : ℤ) : ℚ) / 6) ∧
    (∀ raw : List Char, (stripWS raw).map dashNorm ≠ [] →
      splitFirst '-' ((stripWS raw).map dashNorm) = none →
      pyIntOfChars ((stripWS raw).map dashNorm) = none →
      parse_recharge_chars raw = 0) ∧
    (∀ raw : List Char, ∀ p : List Char × List Char,
      splitFirst '-' ((stripWS raw).map dashNorm) = some p →
      pyIntOfChars p.1 = none ∨ pyIntOfChars p.2 = none →
      parse_recharge_chars raw = 0) ∧
    parse_recharge "" = 0 ∧
    parse_recharge "5-6" = 2/6 ∧ parse_recharge "6" = 1/6 := by
  refine ⟨?_, ?_, ?_, ?_, by rfl, ?_, ?_⟩
  · intro ds hne hd h2 h6
    have hself : (stripWS ds).map dashNorm = ds := by
      rw [stripWS_eq_self ds (fun c hc => isPySpace_of_isDigit (hd c hc))]
      exact map_dashNorm_eq_self ds (fun c hc => dashNorm_of_isDigit (hd c hc))
    have hsplit : splitFirst '-' ds = none :=
      splitFirst_eq_none _ _ (fun c hc => ne_dash_of_isDigit (hd c hc))
    have hint := pyIntOfChars_digits ds hne hd
    have hclamp : max 2 (min 6 (digitsVal ds : ℤ)) = (digitsVal ds : ℤ) := by omega
    cases ds with
    | nil => exact absurd rfl hne
    | cons d rest =>
      simp only [parse_recharge_chars, hself, List.isEmpty_cons, Bool.false_eq_true,
        if_false, hsplit, hint, hclamp]
  · intro l r hlne hrne hl hr hle
    have hmem : ∀ c ∈ l ++ '-' :: r, isPySpace c = false ∧ dashNorm c = c := by
      intro c hc
      rcases List.mem_append.mp hc with hcl | hcr
      · exact ⟨isPySpace_of_isDigit (hl c hcl), dashNorm_of_isDigit (hl c hcl)⟩
      · rcases List.mem_cons.mp hcr with hdash | hcr2
        · subst hdash; exact ⟨by decide, by decide⟩
        · exact ⟨isPySpace_of_isDigit (hr c hcr2), dashNorm_of_isDigit (hr c hcr2)⟩
    have hself : (stripWS (l ++ '-' :: r)).map dashNorm = l ++ '-' :: r := by
      rw [stripWS_eq_self _ (fun c hc => (hmem c hc).1)]
      exact map_dashNorm_eq_self _ (fun c hc => (hmem c hc).2)
    have hsplit : splitFirst '-' (l ++ '-' :: r) = some (l, r) :=
      splitFirst_append '-' l r (fun c hc => ne_dash_of_isDigit (hl c hc))
    have hil := pyIntOfChars_digits l hlne hl
    have hir := pyIntOfChars_digits r hrne hr
    cases l with
    | nil => exact absurd rfl hlne
    | cons d rest =>
      rw [List.cons_append] at hself hsplit
      simp only [parse_recharge_chars, List.cons_append, hself, List.isEmpty_cons,
        Bool.false_eq_true, if_false, hsplit, hil, hir,
        min_eq_left hle, max_eq_right hle]
  · intro raw hne hsplit hint
    have hf : ((stripWS raw).map dashNorm).isEmpty = false := by
      cases h : (stripWS raw).map dashNorm with
      | nil => exact absurd h hne
      | cons a b => rfl
    simp only [parse_recharge_chars, hf, Bool.false_eq_true, if_false, hsplit, hint]
  · intro raw p hsplit hnone
    have hne : (stripWS raw).map dashNorm ≠ [] := by
      intro h
      rw [h] at hsplit
      exact absurd hsplit (by simp [splitFirst])
    have hf : ((stripWS raw).map dashNorm).isEmpty = false := by
      cases h : (stripWS raw).map dashNorm with
      | nil => exact absurd h hne
      | cons a b => rfl
    rcases hnone with h1 | h2
    · simp only [parse_recharge_chars, hf, Bool.false_eq_true, if_false, hsplit, h1]
    · cases hc : pyIntOfChars p.1 with
      | none => simp only [parse_recharge_chars, hf, Bool.false_eq_true, if_false, hsplit, hc]
      | some a =>
        simp only [parse_recharge_chars, hf, Bool.false_eq_true, if_false, hsplit, hc, h2]
  · have h : parse_recharge "5-6" = ((2 : ℤ) : ℚ) / 6 := by rfl
    rw [h]; norm_num
  · have h : parse_recharge "6" = ((1 : ℤ) : ℚ) / 6 := by rfl
    rw [h]; norm_num

/-- Witness for C9: the single-face clause applied at the digit string `"6"`
and the range clause at `"5-6"`. -/
theorem parse_recharge_spec_witness :
    parse_recharge_chars ['6'] = ((7 - (digitsVal ['6'] : ℤ) : ℤ) : ℚ) / 6 ∧
    parse_recharge_chars (['5'] ++ '-' :: ['6']) =
      ((max 1 (min 6 (digitsVal ['6'] : ℤ)) - max 1 (min 6 (digitsVal ['5'] : ℤ)) + 1 : ℤ) : ℚ) / 6 :=
  ⟨parse_recharge_spec.1 ['6'] (by decide) (by decide) (by decide) (by decide),
   parse_recharge_spec.2.1 ['5'] ['6'] (by decide) (by decide) (by decide) (by decide) (by decide)⟩

/-! ## Claim C1: `hit_probs` computes uniform-enumeration probabilities

The specification side is phrased directly from the claim: enumerate the 20
die faces (or the 400 ordered pairs of faces, combined with max/min), count
crits (`face = 20`), hits (`face = 20`, or `face ≠ 1` and
`face + bonus ≥ AC`) and non-crit hits, and divide by the number of
enumerated outcomes. -/

def specFaces : List ℕ :=
  [1, 2, 3, 4, 5, 6, 7, 8, 9, 10, 11, 12, 13, 14, 15, 16, 17, 18, 19, 20]

def specEffRolls (mode : String) : List ℕ :=
  if mode = "normal" then specFaces
  else specFaces.flatMap (fun r1 => specFaces.map (fun r2 =>
    if mode = "adv" then max r1 r2 else min r1 r2))

/-- The claim's hit rule: natural 1 always misses, natural 20 always hits,
any other face hits iff `face + attackBonus ≥ AC`. -/
def specHitB (ac b : ℤ) (r : ℕ) : Bool :=
  decide (r = 20) || (decide (r ≠ 1) && decide ((r : ℤ) + b ≥ ac))

/-- The claim's crit rule: exactly the natural 20. -/
def specCritB (r : ℕ) : Bool := decide (r = 20)

def specHitProbs (ac b : ℤ) (mode : String) : ℚ × ℚ × ℚ :=
  let rolls := specEffRolls mode
  let n : ℚ := ((rolls.length : ℕ) : ℚ)
  (((rolls.countP (fun r => specHitB ac b r && !specCritB r) : ℕ) : ℚ) / n,
   ((rolls.countP specCritB : ℕ) : ℚ) / n,
   ((rolls.countP (specHitB ac b) : ℕ) : ℚ) / n)

lemma classify_snd (ac b : ℤ) (r : ℕ) : (classify ac b r).2 = specCritB r := by
  unfold classify specCritB
  by_cases h1 : r = 1
  · subst h1; simp
  · by_cases h20 : r = 20
    · subst h20; simp
    · simp [h1, h20]

lemma classify_fst (ac b : ℤ) (r : ℕ) : (classify ac b r).1 = specHitB ac b r := by
  unfold classify specHitB
  by_cases h1 : r = 1
  · subst h1; simp
  · by_cases h20 : r = 20
    · subst h20; simp
    · simp [h1, h20]

lemma specCritB_imp_hit (ac b : ℤ) (r : ℕ) (h : specCritB r = true) :
    specHitB ac b r = true := by
  simp only [specCritB, decide_eq_true_eq] at h
  subst h
  simp [specHitB]

/-- Splitting a count of hits into non-crit hits and crits. -/
lemma countP_split {α : Type} (l : List α) (p q : α → Bool)
    (h : ∀ a, q a = true → p a = true) :
    l.countP p = l.countP (fun a => p a && !q a) + l.countP q := by
  induction l with
  | nil => rfl
  | cons a t ih =>
    rw [List.countP_cons, List.countP_cons, List.countP_cons, ih]
    by_cases hq : q a = true
    · simp [hq, h a hq]
      omega
    · have hq' : q a = false := by
        cases hqa : q a
        · rfl
        · exact absurd hqa hq
      by_cases hp : p a = true
      · simp [hp, hq']
        omega
      · have hp' : p a = false := by
          cases hpa : p a
          · rfl
          · exact absurd hpa hp
        simp [hp', hq']

/-- The three counts used by `hit_probs` agree with the claim's counts, for an
arbitrary list of effective rolls. -/
lemma counts_bridge (ac b : ℤ) (rolls : List ℕ) :
    (rolls.map (classify ac b)).countP (fun h => h.2) = rolls.countP specCritB ∧
    (rolls.map (classify ac b)).countP (fun h => h.1 && !h.2) =
      rolls.countP (fun r => specHitB ac b r && !specCritB r) ∧
    rolls.countP (specHitB ac b) =
      rolls.countP (fun r => specHitB ac b r && !specCritB r) + rolls.countP specCritB := by
  refine ⟨?_, ?_, ?_⟩
  · rw [List.countP_map]
    congr 1
    funext r
    exact classify_snd ac b r
  · rw [List.countP_map]
    congr 1
    funext r
    simp only [Function.comp_apply, classify_fst, classify_snd]
  · exact countP_split rolls (specHitB ac b) specCritB (specCritB_imp_hit ac b)

lemma pairHits_eq_map (ac b : ℤ) (mode : String) (hm : ¬ mode = "normal") :
    pairHits ac b mode = (specEffRolls mode).map (classify ac b) := by
  unfold pairHits specEffRolls
  rw [if_neg hm, List.map_flatMap]
  rw [show d20faces = specFaces from by decide]
  simp only [List.map_map]
  rfl

lemma length_specEffRolls (mode : String) (hm : ¬ mode = "normal") :
    (specEffRolls mode).length = 400 := by
  unfold specEffRolls
  rw [if_neg hm, List.length_flatMap]
  simp [specFaces]

/-- **C1**: for every AC, attack bonus and roll mode, `hit_probs` returns the
`(pNonCrit, pCrit, pAny)` triple obtained by uniform enumeration — the 20 die
faces in normal mode, the 400 ordered pairs combined with max (adv) or min
(dis) otherwise, a natural 1 always missing and a natural 20 always hitting
and critting, any other face hitting iff `face + bonus ≥ AC` — and in
particular `hit_probs(15, 5, normal) = (0.5, 1/20, 0.55)`. -/
theorem hit_probs_enumeration_spec :
    (∀ (ac b : ℤ) (mode : String), hit_probs ac b mode = specHitProbs ac b mode) ∧
    hit_probs 15 5 "normal" = (1/2, 1/20, 11/20) := by
  constructor
  · intro ac b mode
    by_cases hm : mode = "normal"
    · subst hm
      have hbr := counts_bridge ac b specFaces
      have hf : normalHits ac b = specFaces.map (classify ac b) := by
        unfold normalHits
        rw [show d20faces = specFaces from by decide]
      have hsp : specEffRolls "normal" = specFaces := rfl
      unfold hit_probs specHitProbs
      rw [if_pos (rfl : ("normal" : String) = "normal")]
      dsimp only
      rw [hsp, hf, hbr.1, hbr.2.1, hbr.2.2,
        show ((specFaces.length : ℕ) : ℚ) = 20 from by norm_num [specFaces]]
      rw [Nat.cast_add, add_div]
    · have hbr := counts_bridge ac b (specEffRolls mode)
      have hf := pairHits_eq_map ac b mode hm
      unfold hit_probs specHitProbs
      rw [if_neg hm]
      dsimp only
      rw [hf, hbr.1, hbr.2.1, hbr.2.2,
        show (((specEffRolls mode).length : ℕ) : ℚ) = 400 from by
          rw [length_specEffRolls mode hm]; norm_num]
      rw [Nat.cast_add, add_div]
  · have h1 : (normalHits 15 5).countP (fun h => h.2) = 1 := by decide
    have h2 : (normalHits 15 5).countP (fun h => h.1 && !h.2) = 10 := by decide
    norm_num [hit_probs, h1, h2]

/-! ## Claim C5: shape and nonnegativity of the single-target simulator -/

lemma stRound_fst_le (opts : StOpts) (attacks : List Attack) (pc : PcRow) (thp : ℚ)
    (o : StOracle) (rnd : ℕ) (st : ℚ × ℤ) :
    st.1 ≤ (stRound opts attacks pc thp o rnd st).1 := by
  unfold stRound
  dsimp only
  exact le_add_of_nonneg_right (le_max_left 0 _)

lemma foldl_stRound_fst_le (opts : StOpts) (attacks : List Attack) (pc : PcRow) (thp : ℚ)
    (o : StOracle) (l : List ℕ) :
    ∀ st : ℚ × ℤ, st.1 ≤ (l.foldl (fun s r => stRound opts attacks pc thp o r s) st).1 := by
  induction l with
  | nil => intro st; exact le_refl _
  | cons a t ih =>
    intro st
    exact le_trans (stRound_fst_le opts attacks pc thp o a st) (ih _)

/-- **C5**: for every configuration with `mc_trials ≥ 1` and `mc_rounds ≥ 1`,
any party member, any enabled-attack list (and any randomness), the
single-target simulator returns exactly `mc_trials` total-damage values, each
of which is ≥ 0. -/
theorem run_mc_sim_shape (opts : StOpts) (attacks : List Attack) (pc : PcRow)
    (os : ℕ → StOracle) (h1 : 1 ≤ opts.mc_trials) (h2 : 1 ≤ opts.mc_rounds) :
    (run_mc_sim opts attacks pc os).length = opts.mc_trials ∧
    ∀ x ∈ run_mc_sim opts attacks pc os, 0 ≤ x := by
  constructor
  · simp [run_mc_sim]
  · intro x hx
    simp only [run_mc_sim, List.mem_map] at hx
    obtain ⟨t, _, hxe⟩ := hx
    rw [← hxe]
    have h := foldl_stRound_fst_le opts attacks pc (average_damage opts.thp_expr) (os t)
      (List.range opts.mc_rounds) (0, 0)
    exact h

/-- Fixture configuration for the C5 witness. -/
def c5Opts : StOpts := ⟨2, 1, "normal", 1, "1d6+4", "none", 1, true⟩

def c5Pc : PcRow := ⟨16, fun _ => 2⟩

def c5Os : ℕ → StOracle :=
  fun _ => ⟨fun _ _ => 1, fun _ _ _ => 7, fun _ _ _ => 12, fun _ _ _ => 3, fun _ _ _ _ _ => 2⟩

/-- Witness for C5 at a concrete two-trial, one-round configuration. -/
theorem run_mc_sim_shape_witness :
    (run_mc_sim c5Opts [c4Atk] c5Pc c5Os).length = c5Opts.mc_trials ∧
    ∀ x ∈ run_mc_sim c5Opts [c4Atk] c5Pc c5Os, 0 ≤ x :=
  run_mc_sim_shape c5Opts [c4Atk] c5Pc c5Os (by decide) (by decide)

/-! ## Claim C10: the rider-adjusted AC is floored at 1 -/

lemma getD_map_range {α : Type} (n j : ℕ) (f : ℕ → α) (d : α) (hj : j < n) :
    ((List.range n).map f).getD j d = f j := by
  rw [List.getD_eq_getElem?_getD, List.getElem?_map, List.getElem?_range hj]
  rfl

/-- **C10**: in the encounter simulator's boss phase (`effectiveACs`, applied
by `bossPhase` whenever the `-2 AC next round` rider mode is selected), a
party member with an active rider is attacked against `max(1, AC - 2)`, which
never drops below 1, whatever the configured AC. -/
theorem effectiveACs_floor (acs riderRem : List ℤ) (j : ℕ) (hj : j < acs.length)
    (hact : 0 < riderRem.getD j 0) :
    (effectiveACs true acs riderRem).getD j 0 = max 1 (acs.getD j 0 - 2) ∧
    1 ≤ (effectiveACs true acs riderRem).getD j 0 := by
  unfold effectiveACs
  rw [getD_map_range acs.length j _ 0 hj, if_pos ⟨rfl, hact⟩]
  exact ⟨rfl, le_max_left 1 _⟩

/-- Witness for C10 at AC 0 with an active rider: the effective AC is 1. -/
theorem effectiveACs_floor_witness :
    (effectiveACs true [0] [1]).getD 0 0 = max 1 ((0 : ℤ) - 2) ∧
    1 ≤ (effectiveACs true [0] [1]).getD 0 0 :=
  effectiveACs_floor [0] [1] 0 (by decide) (by decide)

/-! ## Claim C6: encounter metrics invariants -/

lemma partyPhase_ttk (cfg : EncOpts) (party : List PartyMember) (effMeans : List ℚ)
    (o : EncOracle) (rnd : ℕ) (st : EncTrial) :
    (partyPhase cfg party effMeans o rnd st).ttk = st.ttk ∨
    (partyPhase cfg party effMeans o rnd st).ttk = some rnd := by
  unfold partyPhase
  split
  · exact Or.inl rfl
  · dsimp only
    split
    · exact Or.inr rfl
    · exact Or.inl rfl

lemma bossPhase_ttk (cfg : EncOpts) (attacks : List Attack) (party : List PartyMember)
    (thp : ℚ) (o : EncOracle) (rnd : ℕ) (st : EncTrial) :
    (bossPhase cfg attacks party thp o rnd st).ttk = st.ttk := by
  unfold bossPhase
  split
  · rfl
  · rfl

lemma encRound_ttk (cfg : EncOpts) (attacks : List Attack) (party : List PartyMember)
    (effMeans : List ℚ) (thp : ℚ) (o : EncOracle) (rnd : ℕ) (st : EncTrial) :
    (encRound cfg attacks party effMeans thp o rnd st).ttk = st.ttk ∨
    (encRound cfg attacks party effMeans thp o rnd st).ttk = some rnd := by
  unfold encRound
  split
  · rcases partyPhase_ttk cfg party effMeans o rnd (bossPhase cfg attacks party thp o rnd st)
      with h | h
    · rw [bossPhase_ttk] at h
      exact Or.inl h
    · exact Or.inr h
  · rcases partyPhase_ttk cfg party effMeans o rnd st with h | h
    · exact Or.inl (by rw [bossPhase_ttk, h])
    · exact Or.inr (by rw [bossPhase_ttk, h])

lemma runEncTrial_ttk_bound (cfg : EncOpts) (attacks : List Attack)
    (party : List PartyMember) (effMeans : List ℚ) (o : EncOracle) :
    ∀ r, (runEncTrial cfg attacks party effMeans o).ttk = some r →
      1 ≤ r ∧ r ≤ cfg.enc_max_rounds := by
  have gen : ∀ (thp : ℚ) (l : List ℕ) (st : EncTrial),
      (∀ r, st.ttk = some r → 1 ≤ r ∧ r ≤ cfg.enc_max_rounds) →
      (∀ i ∈ l, i + 1 ≤ cfg.enc_max_rounds) →
      ∀ r, (l.foldl (fun st i => encRound cfg attacks party effMeans thp o (i + 1) st) st).ttk
        = some r → 1 ≤ r ∧ r ≤ cfg.enc_max_rounds := by
    intro thp l
    induction l with
    | nil => intro st hst _ r hr; exact hst r hr
    | cons a t ih =>
      intro st hst hl r hr
      refine ih (encRound cfg attacks party effMeans thp o (a + 1) st) ?_
        (fun i hi => hl i (List.mem_cons_of_mem a hi)) r hr
      intro r2 h2
      rcases encRound_ttk cfg attacks party effMeans thp o (a + 1) st with he | he
      · rw [h2] at he
        exact hst r2 he.symm
      · rw [h2] at he
        have : r2 = a + 1 := Option.some.inj he
        subst this
        exact ⟨by omega, hl a (List.mem_cons_self a t)⟩
  intro r hr
  refine gen (max 0 (average_damage cfg.thp_expr)) (List.range cfg.enc_max_rounds)
    (encInit cfg party) ?_ ?_ r hr
  · intro r2 h2
    simp [encInit] at h2
  · intro i hi
    have := List.mem_range.mp hi
    omega

lemma ttkGT_mono (tk : Option ℕ) (i j : ℕ) (hij : i ≤ j) (h : ttkGT tk j = true) :
    ttkGT tk i = true := by
  cases tk with
  | none => rfl
  | some r =>
    simp only [ttkGT, decide_eq_true_eq] at h ⊢
    omega

lemma surv_getD (cfg : EncOpts) (attacks : List Attack) (party : List PartyMember)
    (effMeans : List ℚ) (os : ℕ → EncOracle) (t : ℕ) (h : t ≤ cfg.enc_max_rounds) :
    (run_encounter_mc cfg attacks party effMeans os).survival_curve.getD t 0 =
      ((((List.range cfg.enc_trials).map
          (fun k => (runEncTrial cfg attacks party effMeans (os k)).ttk)).countP
          (fun tk => ttkGT tk t) : ℕ) : ℚ) / (cfg.enc_trials : ℚ) := by
  unfold run_encounter_mc
  dsimp only
  rw [getD_map_range _ t _ 0 (by omega), List.map_map]
  rfl

/-- **C6**: for every encounter run with positive starting boss HP (and at
least one trial), the survival curve is non-increasing over rounds
`0..enc_max_rounds` with `survival_curve[0] = 1`, the TPK probability lies in
`[0, 1]`, and every finite TTK is at most `enc_max_rounds`. -/
theorem encounter_metrics_invariants (cfg : EncOpts) (attacks : List Attack)
    (party : List PartyMember) (effMeans : List ℚ) (os : ℕ → EncOracle)
    (hhp : 0 < cfg.boss_hp) (ht : 1 ≤ cfg.enc_trials) :
    (∀ i j, i ≤ j → j ≤ cfg.enc_max_rounds →
      (run_encounter_mc cfg attacks party effMeans os).survival_curve.getD j 0 ≤
      (run_encounter_mc cfg attacks party effMeans os).survival_curve.getD i 0) ∧
    (run_encounter_mc cfg attacks party effMeans os).survival_curve.getD 0 0 = 1 ∧
    (0 ≤ (run_encounter_mc cfg attacks party effMeans os).tpk_prob ∧
      (run_encounter_mc cfg attacks party effMeans os).tpk_prob ≤ 1) ∧
    (∀ tk ∈ (run_encounter_mc cfg attacks party effMeans os).ttk, ∀ r, tk = some r →
      r ≤ cfg.enc_max_rounds) := by
  have hT : (0 : ℚ) < (cfg.enc_trials : ℚ) := by
    exact_mod_cast Nat.lt_of_lt_of_le Nat.zero_lt_one ht
  refine ⟨?_, ?_, ⟨?_, ?_⟩, ?_⟩
  · intro i j hij hj
    rw [surv_getD cfg attacks party effMeans os j hj,
      surv_getD cfg attacks party effMeans os i (le_trans hij hj)]
    rw [div_le_div_iff_of_pos_right hT]
    exact_mod_cast List.countP_mono_left (fun tk _ htk => ttkGT_mono tk i j hij htk)
  · rw [surv_getD cfg attacks party effMeans os 0 (by omega)]
    rw [List.countP_eq_length.mpr ?_]
    · rw [List.length_map, List.length_range]
      exact div_self (ne_of_gt hT)
    · intro tk htk
      obtain ⟨k, _, hk⟩ := List.mem_map.mp htk
      cases hc : tk with
      | none => rfl
      | some r =>
        have hb := runEncTrial_ttk_bound cfg attacks party effMeans (os k) r (by rw [hk, hc])
        simp only [ttkGT, decide_eq_true_eq]
        omega
  · unfold run_encounter_mc
    dsimp only
    exact div_nonneg (by exact_mod_cast Nat.zero_le _) (le_of_lt hT)
  · unfold run_encounter_mc
    dsimp only
    rw [div_le_one hT]
    have hlen : ((List.range cfg.enc_trials).map
        (fun t => runEncTrial cfg attacks party effMeans (os t))).length = cfg.enc_trials := by
      simp
    exact_mod_cast le_trans (List.countP_le_length _) (le_of_eq hlen)
  · intro tk htk r hrt
    unfold run_encounter_mc at htk
    dsimp only at htk
    rw [List.map_map] at htk
    obtain ⟨k, _, hk⟩ := List.mem_map.mp htk
    exact (runEncTrial_ttk_bound cfg attacks party effMeans (os k) r (by rw [← hrt, ← hk]; rfl)).2

/-- Fixture configuration for the C6 witness: one trial, two rounds, boss HP
10, a single party member, party acting first. -/
def c6Cfg : EncOpts :=
  ⟨"normal", 1, "0", false, 0, 1, 1, false, "5-6", 0, 1,
   "none", 1, true, 10, 1, 0, 1, 2, "party_first"⟩

def c6Party : List PartyMember := [⟨16, 20, fun _ => 2⟩]

def c6Oracle : ℕ → EncOracle :=
  fun _ => ⟨fun _ => false, fun _ _ => 5, fun _ _ => 0, fun _ _ _ => 0, fun _ _ _ => 0,
    fun _ _ _ => 0, fun _ _ _ => 0, fun _ _ _ _ _ => 0, fun _ _ => 0, fun _ _ => 0,
    fun _ => 1, fun _ _ => 0, fun _ _ => 0⟩

/-- Witness for C6 at a concrete one-trial encounter. -/
theorem encounter_metrics_invariants_witness :
    (∀ i j, i ≤ j → j ≤ c6Cfg.enc_max_rounds →
      (run_encounter_mc c6Cfg [] c6Party [5] c6Oracle).survival_curve.getD j 0 ≤
      (run_encounter_mc c6Cfg [] c6Party [5] c6Oracle).survival_curve.getD i 0) ∧
    (run_encounter_mc c6Cfg [] c6Party [5] c6Oracle).survival_curve.getD 0 0 = 1 ∧
    (0 ≤ (run_encounter_mc c6Cfg [] c6Party [5] c6Oracle).tpk_prob ∧
      (run_encounter_mc c6Cfg [] c6Party [5] c6Oracle).tpk_prob ≤ 1) ∧
    (∀ tk ∈ (run_encounter_mc c6Cfg [] c6Party [5] c6Oracle).ttk, ∀ r, tk = some r →
      r ≤ c6Cfg.enc_max_rounds) :=
  encounter_metrics_invariants c6Cfg [] c6Party [5] c6Oracle (by decide) (by decide)

/-! ## Claims C7 and C8: the auto-tuner -/

lemma escalateHigh_stop (sim : ℤ → ℕ → Option ℚ × ℚ) (quick : ℕ) (target : ℚ)
    (n : ℕ) (high : ℚ) (medHigh : Option ℚ) (h : oLT medHigh target = false) :
    escalateHigh sim quick target n high medHigh = (high, medHigh) := by
  cases n with
  | zero => rfl
  | succ m => simp [escalateHigh, h]

lemma bisectLoop_succ (sim : ℤ → ℕ → Option ℚ × ℚ) (quick : ℕ) (target : ℚ)
    (n : ℕ) (low high : ℚ) :
    bisectLoop sim quick target (n + 1) low high =
      (let mid := (low + high) / 2
       let medMid := (simulate_with_hp sim mid quick).1
       let lh := if leO target medMid then (low, mid) else (mid, high)
       if oClose medMid target then lh
       else bisectLoop sim quick target n lh.1 lh.2) := rfl

/-- **C7** (amended): whenever tuning succeeds, the boss HP used for the final
full-trial simulation equals `int(round(high))` — Python banker's rounding of
the final high bracket bound — not its ceiling. -/
theorem autoTune_final_hp_rounds_high (inp : TuneInput) (sim : ℤ → ℕ → Option ℚ × ℚ)
    (r : TuneResult) (st : ℤ × ℕ) (h : autoTune inp sim = (some r, st)) :
    r.tunedHp = pyRound r.finalHigh ∧ st.1 = r.tunedHp := by
  unfold autoTune at h
  dsimp only at h
  split at h
  · injection h with h1 h2
    injection h1 with h1
    subst h2
    rw [← h1]
    exact ⟨rfl, rfl⟩
  · injection h with h1 h2
    exact absurd h1 (by simp)

/-- Fixture: a deterministic simulation whose median TTK equals the boss HP. -/
def c7Sim : ℤ → ℕ → Option ℚ × ℚ := fun hp _ => (some ((hp : ℤ) : ℚ), 0)

def c7Inp : TuneInput := ⟨4, 10, 10000⟩

/-- Full evaluation of the tuner on the fixture: the bracket is `[1, 10]`,
bisection visits 5.5 (median 6), 3.25 (median 3) and 4.375 (median 4, early
stop), so the final high bound is 35/8 and the final simulation runs at
`round(35/8) = 4` with full trial count 10000. -/
lemma c7_autoTune_eval :
    autoTune c7Inp c7Sim =
      (some ⟨35/8, 4, some (((4 : ℤ) : ℚ)), 0⟩, (4, 10000)) := by
  have hr1 : pyRound 1 = 1 := by
    unfold pyRound
    rw [show ⌊(1 : ℚ)⌋ = 1 from by norm_num, if_pos (by norm_num)]
  have hr10 : pyRound 10 = 10 := by
    unfold pyRound
    rw [show ⌊(10 : ℚ)⌋ = 10 from by norm_num, if_pos (by norm_num)]
  have hr55 : pyRound (11/2) = 6 := by
    unfold pyRound
    rw [show ⌊(11/2 : ℚ)⌋ = 5 from by norm_num,
      if_neg (by norm_num), if_neg (by norm_num), if_neg (by decide)]
    norm_num
  have hr325 : pyRound (13/4) = 3 := by
    unfold pyRound
    rw [show ⌊(13/4 : ℚ)⌋ = 3 from by norm_num, if_pos (by norm_num)]
  have hr4375 : pyRound (35/8) = 4 := by
    unfold pyRound
    rw [show ⌊(35/8 : ℚ)⌋ = 4 from by norm_num, if_pos (by norm_num)]
  have hs1 : ∀ q, simulate_with_hp c7Sim 1 q = (some 1, 0) := by
    intro q
    unfold simulate_with_hp c7Sim
    rw [hr1]
    norm_num
  have hs10 : ∀ q, simulate_with_hp c7Sim 10 q = (some 10, 0) := by
    intro q
    unfold simulate_with_hp c7Sim
    rw [hr10]
    norm_num
  have hs55 : ∀ q, simulate_with_hp c7Sim (11/2) q = (some 6, 0) := by
    intro q
    unfold simulate_with_hp c7Sim
    rw [hr55]
    norm_num
  have hs325 : ∀ q, simulate_with_hp c7Sim (13/4) q = (some 3, 0) := by
    intro q
    unfold simulate_with_hp c7Sim
    rw [hr325]
    norm_num
  have hs4375 : ∀ q, simulate_with_hp c7Sim (35/8) q = (some 4, 0) := by
    intro q
    unfold simulate_with_hp c7Sim
    rw [hr4375]
    norm_num
  have hb14 : ∀ q, bisectLoop c7Sim q 4 14 (13/4) (11/2) = (13/4, 35/8) := by
    intro q
    rw [show (14 : ℕ) = 13 + 1 from rfl, bisectLoop_succ]
    dsimp only
    rw [show ((13/4 : ℚ) + 11/2) / 2 = 35/8 from by norm_num, hs4375 q]
    rw [if_pos (show leO 4 (some 4) = true from by norm_num [leO])]
    rw [if_pos (show oClose (some 4) 4 = true from by norm_num [oClose])]
  have hb15 : ∀ q, bisectLoop c7Sim q 4 15 1 (11/2) = (13/4, 35/8) := by
    intro q
    rw [show (15 : ℕ) = 14 + 1 from rfl, bisectLoop_succ]
    dsimp only
    rw [show ((1 : ℚ) + 11/2) / 2 = 13/4 from by norm_num, hs325 q]
    rw [if_neg (show ¬ leO 4 (some 3) = true from by norm_num [leO])]
    rw [if_neg (show ¬ oClose (some 3) 4 = true from by norm_num [oClose])]
    exact hb14 q
  have hb16 : ∀ q, bisectLoop c7Sim q 4 16 1 10 = (13/4, 35/8) := by
    intro q
    rw [show (16 : ℕ) = 15 + 1 from rfl, bisectLoop_succ]
    dsimp only
    rw [show ((1 : ℚ) + 10) / 2 = 11/2 from by norm_num, hs55 q]
    rw [if_pos (show leO 4 (some 6) = true from by norm_num [leO])]
    rw [if_neg (show ¬ oClose (some 6) 4 = true from by norm_num [oClose])]
    exact hb15 q
  have hrl : ∀ q, retryLow c7Sim q 4 (some 1) = some 1 := by
    intro q
    unfold retryLow
    rw [if_neg (show ¬ oGT (some 1) 4 = true from by norm_num [oGT])]
  unfold autoTune
  simp only [c7Inp]
  rw [show max (10 : ℚ) ((10 : ℤ) : ℚ) = 10 from by norm_num]
  rw [hs1, hs10]
  rw [escalateHigh_stop c7Sim _ 4 12 10 (some 10) (by norm_num [oLT])]
  rw [hrl]
  rw [if_pos (show (oLE (some 1) 4 && leO 4 (some 10)) = true from by norm_num [oLE, leO])]
  rw [hb16, hr4375]
  rfl

/-- **C7** (counterexample): with target median 4 and median equal to HP, the
bisection ends with `high = 35/8 = 4.375`; the final simulation runs at
`round(4.375) = 4`, while the claim's ceiling would be 5. -/
theorem autoTune_round_not_ceil :
    ((autoTune c7Inp c7Sim).1).map (fun r => (r.finalHigh, r.tunedHp)) = some (35/8, 4) ∧
    ⌈(35/8 : ℚ)⌉ = 5 ∧ ((4 : ℤ) ≠ 5) := by
  refine ⟨?_, by rw [Int.ceil_eq_iff] <;> norm_num, by decide⟩
  rw [c7_autoTune_eval]
  rfl

/-- **C8**: when the bracket check fails, the tuner aborts with no tuned HP
(`none`) and the options' boss HP and trial count are restored to their
pre-tuning values. -/
theorem autoTune_bracket_fail_restores (inp : TuneInput) (sim : ℤ → ℕ → Option ℚ × ℚ)
    (h : (autoTune inp sim).1 = none) :
    (autoTune inp sim).2 = (inp.original_hp, inp.original_trials) := by
  unfold autoTune at h ⊢
  dsimp only at h ⊢
  split at h
  · exact absurd h (by simp)
  · next hc =>
    rw [if_neg hc]

/-- Fixture: a simulation whose median TTK is always 100 rounds, so a target
of 4 cannot be bracketed from below. -/
def c8Sim : ℤ → ℕ → Option ℚ × ℚ := fun _ _ => (some 100, 0)

def c8Inp : TuneInput := ⟨4, 10, 1000⟩

lemma c8_bracket_fails : (autoTune c8Inp c8Sim).1 = none := by
  have hsim : ∀ (hp : ℚ) q, simulate_with_hp c8Sim hp q = (some 100, 0) := fun _ _ => rfl
  have hrl : ∀ q, retryLow c8Sim q 4 (some 100) = some 100 := by
    intro q
    unfold retryLow
    rw [if_pos (show oGT (some 100) 4 = true from by norm_num [oGT])]
    exact rfl
  unfold autoTune
  simp only [c8Inp]
  rw [hsim, hsim]
  rw [escalateHigh_stop c8Sim _ 4 12 _ (some 100) (by norm_num [oLT])]
  rw [hrl]
  rw [if_neg (show ¬ (oLE (some 100) 4 && leO 4 (some 100)) = true from by norm_num [oLE])]

/-- Witness for C8: the constant-median fixture aborts and restores
`(boss_hp, enc_trials) = (10, 1000)`. -/
theorem autoTune_bracket_fail_restores_witness :
    (autoTune c8Inp c8Sim).2 = (c8Inp.original_hp, c8Inp.original_trials) :=
  autoTune_bracket_fail_restores c8Inp c8Sim c8_bracket_fails

/-- Witness for the amended C7: on the concrete fixture the tuner succeeds
and its final simulation HP (4) is the banker's rounding of the final high
bound (35/8). -/
theorem autoTune_final_hp_rounds_high_witness :
    (4 : ℤ) = pyRound ((35/8 : ℚ)) ∧ (((4 : ℤ), (10000 : ℕ)) : ℤ × ℕ).1 = (4 : ℤ) :=
  autoTune_final_hp_rounds_high c7Inp c7Sim ⟨35/8, 4, some (((4 : ℤ) : ℚ)), 0⟩ (4, 10000)
    c7_autoTune_eval

end BossBalance

